import Mathlib

/-!
Verification development for the defiscanner repository: a shallow embedding
of `defi_processor.py` (chain-fee fetching and the Ethereum stablecoin-issuer
correction), the earlier variant `defi-chain-api/defi_processor.py`, and the
cache / endpoint layer of `main.py`, together with theorems settling the
specification claims.

Modelling conventions:
- JSON numeric fee values are modelled as `Int` (the claims concern only exact
  subtraction and summation structure).
- UNIX timestamps are `Nat`; the `YYYY-MM-DD` UTC date string produced by
  `datetime.utcfromtimestamp(ts).strftime` is modelled by the UTC day number
  `ts / 86400` (the rendering to a fixed-width date string is injective and
  order-preserving, so equality and ordering of dates are captured exactly).
- A Python `dict` built by repeated assignment is modelled as an association
  list with insertion-order keys and last-write-wins values (`dinsert`).
- A fallible upstream fetch is an `Except` value; exceptions caught by
  `try/except` blocks are matched on explicitly.
-/

set_option linter.unusedVariables false

namespace DefiScanner

/-- One protocol record from the per-chain upstream response:
`{name, chains: [...], breakdown?: [[timestamp, value], ...]}`.
`chains` defaults to `[]` when missing (`protocol.get("chains", [])`);
`breakdown` is optional (`if "breakdown" in protocol`). -/
structure Protocol where
  name : String
  chains : List String
  breakdown : Option (List (Nat × Int))
deriving Repr, DecidableEq

/-- The per-chain upstream response body used by `get_chain_data`:
`{totalDataChart: [[timestamp, value], ...], protocols?: [...]}`.
`protocols` is optional (`data.get("protocols", [])`). -/
structure ChainResponse where
  totalDataChart : List (Nat × Int)
  protocols : Option (List Protocol)
deriving Repr, DecidableEq

/-- One emitted point `{'date': ..., 'value': ...}` of the processed series. -/
structure Entry where
  date : Nat
  value : Int
deriving Repr, DecidableEq

/-- UTC-day truncation of a UNIX timestamp, standing for the
`YYYY-MM-DD` string `datetime.utcfromtimestamp(ts).strftime('%Y-%m-%d')`. -/
def utcDay (ts : Nat) : Nat := ts / 86400

/-- Python's `str.lower()`: lowercase every character (written via the
character list so that it evaluates in the kernel; extensionally it is
`String.toLower`). -/
def pyLower (s : String) : String := String.mk (s.data.map Char.toLower)

/-- The allow-list test `protocol["name"].lower() in ["tether", "circle", "usdt", "usdc"]`. -/
def isStablecoinIssuerName (n : String) : Bool :=
  ["tether", "circle", "usdt", "usdc"].contains (pyLower n)

/-- The correction-set filter in `get_chain_data` (the `tether_circle_protocols`
list): protocols whose lowercased name is in the allow-list and whose `chains`
list contains the exact string `"Ethereum"`. -/
def correctionSet (protos : List Protocol) : List Protocol :=
  protos.filter (fun p => isStablecoinIssuerName p.name && p.chains.contains "Ethereum")

/-- The inner correction loop of `get_chain_data`: starting from the raw
`value`, for every correction-set protocol that has a `breakdown` field,
subtract the fee of every breakdown entry whose timestamp equals `ts`. -/
def correctedValue (ts : Nat) (v : Int) (cset : List Protocol) : Int :=
  cset.foldl
    (fun acc p =>
      match p.breakdown with
      | none => acc
      | some bd => bd.foldl (fun a e => if e.1 = ts then a - e.2 else a) acc)
    v

/-- `DeFiChainDataProcessor.get_chain_data` (src/defi_processor.py): maps each
`(timestamp, value)` of `totalDataChart` to a dated entry, applying the
Ethereum stablecoin-issuer correction when the chain is Ethereum
(case-insensitive) and the correction set is non-empty. -/
def get_chain_data (chain_name : String) (data : ChainResponse) : List Entry :=
  let cset :=
    if pyLower chain_name = "ethereum" then correctionSet (data.protocols.getD [])
    else []
  data.totalDataChart.map fun tv =>
    let v :=
      if pyLower chain_name = "ethereum" ∧ cset ≠ [] then correctedValue tv.1 tv.2 cset
      else tv.2
    { date := utcDay tv.1, value := v }

/-- `DeFiChainDataProcessor.get_chain_data` of the earlier variant
(src/defi-chain-api/defi_processor.py): plain reshaping with no correction. -/
def get_chain_data_v1 (chain_name : String) (data : ChainResponse) : List Entry :=
  data.totalDataChart.map fun tv => { date := utcDay tv.1, value := tv.2 }

/-- The total fee matched at timestamp `ts` in one protocol's breakdown:
sum of the fee values of the breakdown entries whose timestamp equals `ts`
(zero when the `breakdown` field is missing). -/
def protocolFeeAt (ts : Nat) (p : Protocol) : Int :=
  (((p.breakdown.getD []).filter (fun e => e.1 = ts)).map (fun e => e.2)).sum

/-- The cumulative correction at timestamp `ts` across a list of protocols. -/
def totalFeeAt (ts : Nat) (cset : List Protocol) : Int :=
  (cset.map (protocolFeeAt ts)).sum

lemma foldl_sub_matched (ts : Nat) (bd : List (Nat × Int)) :
    ∀ a : Int,
      bd.foldl (fun a e => if e.1 = ts then a - e.2 else a) a
        = a - ((bd.filter (fun e => e.1 = ts)).map (fun e => e.2)).sum := by
  induction bd with
  | nil => intro a; simp
  | cons e bd ih =>
    intro a
    by_cases h : e.1 = ts
    · simp [List.foldl_cons, List.filter_cons, h, ih, sub_sub]
    · simp [List.foldl_cons, List.filter_cons, h, ih]

lemma correctedValue_cons (ts : Nat) (p : Protocol) (ps : List Protocol) (v : Int) :
    correctedValue ts v (p :: ps) = correctedValue ts (v - protocolFeeAt ts p) ps := by
  simp only [correctedValue, List.foldl_cons]
  cases hb : p.breakdown with
  | none => simp [protocolFeeAt, hb]
  | some bd => simp [foldl_sub_matched, protocolFeeAt, hb]

lemma correctedValue_eq_sub (ts : Nat) (cset : List Protocol) :
    ∀ v : Int, correctedValue ts v cset = v - totalFeeAt ts cset := by
  induction cset with
  | nil => intro v; simp [correctedValue, totalFeeAt]
  | cons p ps ih =>
    intro v
    rw [correctedValue_cons, ih]
    simp [totalFeeAt, sub_sub]

/-- Python `dict` assignment `d[k] = v`: replace the value at an existing key
in place, otherwise append the new key at the end (insertion order). -/
def dinsert {α β : Type} [DecidableEq α] (d : List (α × β)) (k : α) (v : β) :
    List (α × β) :=
  if d.any (fun p => p.1 = k) then
    d.map (fun p => if p.1 = k then (k, v) else p)
  else d ++ [(k, v)]

/-- Python `d[k]` / `k in d`: the value at the first occurrence of key `k`. -/
def dlookup {α β : Type} [DecidableEq α] (k : α) : List (α × β) → Option β
  | [] => none
  | p :: d => if p.1 = k then some p.2 else dlookup k d

/-- The dict comprehension `{entry['date']: entry['value'] for entry in chain_data}`:
keys in first-occurrence order, each holding the value of its last occurrence. -/
def toDict (es : List Entry) : List (Nat × Int) :=
  es.foldl (fun d e => dinsert d e.date e.value) []

/-- The upstream source as seen by `get_time_series_format`: the chain list
returned by `get_chain_names`, and for each chain either its parsed response
or the exception (`UpstreamError` / malformed field) its fetch raised. -/
structure Fetcher where
  chains : List String
  fetch : String → Except String ChainResponse

/-- One iteration of the `for chain in chain_names` loop: `none` when the
fetch raised (the `except` branch skips the chain) or when `chain_data` is
empty (the `if chain_data:` guard), otherwise the chain's date→value dict. -/
def processChain (fetch : String → Except String ChainResponse) (c : String) :
    Option (List (Nat × Int)) :=
  match fetch c with
  | .error _ => none
  | .ok resp =>
    let cd := get_chain_data c resp
    if cd = [] then none else some (toDict cd)

/-- The `all_data` accumulation loop of `get_time_series_format`. -/
def buildData (fetch : String → Except String ChainResponse)
    (cs : List String) (acc : List (String × List (Nat × Int))) :
    List (String × List (Nat × Int)) :=
  cs.foldl
    (fun acc c =>
      match processChain fetch c with
      | none => acc
      | some d => dinsert acc c d)
    acc

/-- `sorted(set(...))`: the ascending, duplicate-free list of the elements. -/
def sortedUnion (l : List Nat) : List Nat :=
  l.dedup.insertionSort (· ≤ ·)

/-- `DeFiChainDataProcessor.get_time_series_format` (src/defi_processor.py):
returns the sorted list of all dates and the per-chain date→value data,
skipping chains whose fetch raised and chains with empty data. -/
def get_time_series_format (f : Fetcher) :
    List Nat × List (String × List (Nat × Int)) :=
  let all_data := buildData f.fetch f.chains []
  let all_dates := sortedUnion (all_data.flatMap (fun cd => cd.2.map Prod.fst))
  (all_dates, all_data)

/-! ### The cache and endpoint layer (src/main.py) -/

/-- `CACHE_EXPIRATION = 60 * 60 * 24`. -/
def CACHE_EXPIRATION : Nat := 60 * 60 * 24

/-- The cached payload built by `get_fresh_data`:
`{"dates": ..., "chainData": ..., "lastUpdated": ...}`. -/
structure Data where
  dates : List Nat
  chainData : List (String × List (Nat × Int))
  lastUpdated : Nat
deriving Repr, DecidableEq

/-- The Redis backend as the service sees it: whether the connection works,
and the entry stored under `CACHE_KEY` with its insertion time (Redis
expires it `CACHE_EXPIRATION` seconds after insertion). -/
structure RedisState where
  reachable : Bool
  entry : Option (Nat × Data)
deriving Repr, DecidableEq

/-- The error taxonomy at the cache layer: `redis.RedisError` on an
unreachable backend. -/
inductive CacheErr where
  | backend
deriving Repr, DecidableEq

/-- `redis_client.get(CACHE_KEY)` at wall-clock time `now`: raises when the
backend is unreachable; otherwise returns the stored value if present and
not yet expired. -/
def redis_get (now : Nat) (r : RedisState) : Except CacheErr (Option Data) :=
  if r.reachable then
    .ok (match r.entry with
      | some td => if now < td.1 + CACHE_EXPIRATION then some td.2 else none
      | none => none)
  else .error .backend

/-- The snapshot `get_fresh_data` assembles before caching. -/
def freshData (f : Fetcher) (now : Nat) : Data :=
  { dates := (get_time_series_format f).1
    chainData := (get_time_series_format f).2
    lastUpdated := now }

/-- `get_fresh_data` (src/main.py): builds the snapshot, then
`redis_client.setex(...)`; a `RedisError` from the write is caught, logged
and re-raised, so the whole call fails when the backend is unreachable. -/
def get_fresh_data (f : Fetcher) (now : Nat) (r : RedisState) :
    Except CacheErr (Data × RedisState) :=
  let d := freshData f now
  if r.reachable then .ok (d, { reachable := r.reachable, entry := some (now, d) })
  else .error .backend

/-- `get_cached_or_fresh_data` (src/main.py). The `Nat` component counts the
upstream rebuilds (`get_fresh_data` invocations that reach the fetcher) the
call performed. The `except redis.RedisError` branch falls back to
`get_fresh_data`; an exception raised inside that handler propagates. -/
def get_cached_or_fresh_data (f : Fetcher) (now : Nat) (r : RedisState) :
    Except CacheErr (Data × RedisState × Nat) :=
  match redis_get now r with
  | .ok (some d) => .ok (d, r, 0)
  | .ok none =>
    match get_fresh_data f now r with
    | .ok dr => .ok (dr.1, dr.2, 1)
    | .error e => .error e
  | .error _ =>
    match get_fresh_data f now r with
    | .ok dr => .ok (dr.1, dr.2, 1)
    | .error e => .error e

/-- The body of the `if chain_filter:` branch of `get_chain_fees`, inside the
`try` block: `Except.error 404` models `raise HTTPException(status_code=404)`.
An empty-string filter is falsy and returns the full data. -/
def filterChainData (d : Data) (chain_filter : Option String) :
    Except Nat Data :=
  match chain_filter with
  | none => .ok d
  | some c =>
    if c = "" then .ok d
    else
      match dlookup c d.chainData with
      | none => .error 404
      | some cd =>
        .ok { dates := d.dates, chainData := [(c, cd)], lastUpdated := d.lastUpdated }

/-- `get_chain_fees` (src/main.py): the whole body sits in a `try` whose
`except Exception` re-raises every exception — including the
`HTTPException(404)` raised for an absent chain — as `HTTPException(500)`. -/
def get_chain_fees (f : Fetcher) (now : Nat) (r : RedisState)
    (chain_filter : Option String) : Except Nat Data :=
  match get_cached_or_fresh_data f now r with
  | .error _ => .error 500
  | .ok dr =>
    match filterChainData dr.1 chain_filter with
    | .ok res => .ok res
    | .error _ => .error 500

/-! ### Dictionary lemmas -/

section DictLemmas

variable {α β : Type} [DecidableEq α]

lemma dlookup_nil (k : α) : dlookup k ([] : List (α × β)) = none := rfl

lemma dlookup_cons (k : α) (p : α × β) (d : List (α × β)) :
    dlookup k (p :: d) = if p.1 = k then some p.2 else dlookup k d := rfl

lemma dlookup_eq_none (d : List (α × β)) (k : α)
    (h : ∀ p ∈ d, p.1 ≠ k) : dlookup k d = none := by
  induction d with
  | nil => rfl
  | cons q d ih =>
    have hq : ¬(q.1 = k) := h q (List.mem_cons_self q d)
    simp only [dlookup, hq, if_false]
    exact ih (fun p hp => h p (List.mem_cons_of_mem q hp))

lemma dlookup_append_right (d₁ d₂ : List (α × β)) (k : α)
    (h : dlookup k d₁ = none) : dlookup k (d₁ ++ d₂) = dlookup k d₂ := by
  induction d₁ with
  | nil => rfl
  | cons q d₁ ih =>
    by_cases hq : q.1 = k
    · simp [dlookup, hq] at h
    · simp only [dlookup, hq, if_false] at h
      simp only [List.cons_append, dlookup, hq, if_false]
      exact ih h

lemma dlookup_append_single_ne (d : List (α × β)) (k k' : α) (v : β)
    (hne : k' ≠ k) : dlookup k' (d ++ [(k, v)]) = dlookup k' d := by
  induction d with
  | nil => simp [dlookup_nil, dlookup_cons, Ne.symm hne]
  | cons q d ih =>
    by_cases hq' : q.1 = k' <;> simp [dlookup_cons, hq', ih]

lemma dlookup_map_replace (d : List (α × β)) (k : α) (v : β)
    (h : d.any (fun p => p.1 = k) = true) :
    dlookup k (d.map (fun p => if p.1 = k then (k, v) else p)) = some v := by
  induction d with
  | nil => simp at h
  | cons q d ih =>
    by_cases hq : q.1 = k
    · simp [dlookup_cons, hq]
    · simp only [List.any_cons, Bool.or_eq_true, decide_eq_true_eq] at h
      rcases h with h | h
      · exact absurd h hq
      · simp only [List.map_cons, hq, if_false, dlookup_cons]
        exact ih h

lemma dlookup_map_replace_ne (d : List (α × β)) (k k' : α) (v : β)
    (hne : k' ≠ k) :
    dlookup k' (d.map (fun p => if p.1 = k then (k, v) else p)) = dlookup k' d := by
  induction d with
  | nil => rfl
  | cons q d ih =>
    by_cases hq : q.1 = k
    · simp [dlookup_cons, hq, Ne.symm hne, ih]
    · by_cases hq' : q.1 = k' <;> simp [dlookup_cons, hq, hq', hne, ih]

lemma dlookup_dinsert_self (d : List (α × β)) (k : α) (v : β) :
    dlookup k (dinsert d k v) = some v := by
  unfold dinsert
  by_cases h : d.any (fun p => p.1 = k) = true
  · rw [if_pos h]
    exact dlookup_map_replace d k v h
  · rw [if_neg h]
    rw [List.any_eq_true] at h
    push_neg at h
    have hnone : dlookup k d = none := by
      refine dlookup_eq_none d k (fun p hp hpk => ?_)
      exact h p hp (by simpa using hpk)
    rw [dlookup_append_right d _ k hnone]
    simp [dlookup_cons]

lemma dlookup_dinsert_ne (d : List (α × β)) (k k' : α) (v : β) (hne : k' ≠ k) :
    dlookup k' (dinsert d k v) = dlookup k' d := by
  unfold dinsert
  by_cases h : d.any (fun p => p.1 = k) = true
  · rw [if_pos h]
    exact dlookup_map_replace_ne d k k' v hne
  · rw [if_neg h]
    exact dlookup_append_single_ne d k k' v hne

lemma keys_map_replace (d : List (α × β)) (k : α) (v : β) :
    (d.map (fun p => if p.1 = k then (k, v) else p)).map Prod.fst = d.map Prod.fst := by
  induction d with
  | nil => rfl
  | cons q d ih =>
    by_cases hq : q.1 = k <;> simp [hq, ih]

lemma keys_dinsert (d : List (α × β)) (k : α) (v : β) :
    (dinsert d k v).map Prod.fst
      = if d.any (fun p => p.1 = k) then d.map Prod.fst
        else d.map Prod.fst ++ [k] := by
  unfold dinsert
  by_cases h : d.any (fun p => p.1 = k) = true
  · rw [if_pos h, if_pos h, keys_map_replace]
  · rw [if_neg h, if_neg h, List.map_append]
    rfl

lemma mem_keys_dinsert (d : List (α × β)) (k k' : α) (v : β) :
    k' ∈ (dinsert d k v).map Prod.fst ↔ k' ∈ d.map Prod.fst ∨ k' = k := by
  rw [keys_dinsert]
  by_cases h : d.any (fun p => p.1 = k) = true
  · rw [if_pos h]
    constructor
    · exact Or.inl
    · rintro (hm | rfl)
      · exact hm
      · rw [List.any_eq_true] at h
        obtain ⟨p, hp, hpk⟩ := h
        exact List.mem_map.mpr ⟨p, hp, by simpa using hpk⟩
  · rw [if_neg h]
    simp

lemma nodup_keys_dinsert (d : List (α × β)) (k : α) (v : β)
    (hd : (d.map Prod.fst).Nodup) : ((dinsert d k v).map Prod.fst).Nodup := by
  rw [keys_dinsert]
  by_cases h : d.any (fun p => p.1 = k) = true
  · rw [if_pos h]; exact hd
  · rw [if_neg h]
    rw [List.nodup_append]
    refine ⟨hd, List.nodup_singleton k, ?_⟩
    intro a ha hak
    rw [List.mem_singleton] at hak
    subst hak
    obtain ⟨p, hp, hpk⟩ := List.mem_map.mp ha
    rw [List.any_eq_true] at h
    push_neg at h
    exact h p hp (by simpa using hpk)

lemma mem_dinsert (d : List (α × β)) (k : α) (v : β) (p : α × β)
    (hp : p ∈ dinsert d k v) : p ∈ d ∨ p = (k, v) := by
  unfold dinsert at hp
  by_cases h : d.any (fun q => q.1 = k) = true
  · rw [if_pos h] at hp
    obtain ⟨q, hq, hqe⟩ := List.mem_map.mp hp
    by_cases hqk : q.1 = k
    · right
      rw [if_pos hqk] at hqe
      exact hqe.symm
    · left
      rw [if_neg hqk] at hqe
      exact hqe ▸ hq
  · rw [if_neg h] at hp
    simpa using hp

end DictLemmas

/-! ### `toDict` lemmas -/

lemma toDict_append_single (es : List Entry) (e : Entry) :
    toDict (es ++ [e]) = dinsert (toDict es) e.date e.value := by
  simp [toDict, List.foldl_append]

lemma nodup_keys_toDict (es : List Entry) :
    ((toDict es).map Prod.fst).Nodup := by
  induction es using List.reverseRecOn with
  | nil => simp [toDict]
  | append_singleton es e ih =>
    rw [toDict_append_single]
    exact nodup_keys_dinsert _ _ _ ih

lemma dlookup_toDict (es : List Entry) (k : Nat) :
    dlookup k (toDict es)
      = ((es.filter (fun e => e.date = k)).getLast?).map Entry.value := by
  induction es using List.reverseRecOn with
  | nil => simp [toDict, dlookup]
  | append_singleton es e ih =>
    rw [toDict_append_single]
    by_cases h : e.date = k
    · subst h
      rw [dlookup_dinsert_self]
      simp [List.filter_append, List.getLast?_append]
    · rw [dlookup_dinsert_ne _ _ _ _ (fun hk => h hk.symm), ih]
      simp [List.filter_append, h]

lemma mem_keys_toDict (es : List Entry) (k : Nat) :
    k ∈ (toDict es).map Prod.fst ↔ k ∈ es.map Entry.date := by
  induction es using List.reverseRecOn with
  | nil => simp [toDict]
  | append_singleton es e ih =>
    rw [toDict_append_single]
    rw [mem_keys_dinsert, ih]
    simp [or_comm]

/-! ### `buildData` lemmas -/

lemma buildData_nil (fetch : String → Except String ChainResponse)
    (acc : List (String × List (Nat × Int))) : buildData fetch [] acc = acc := rfl

lemma buildData_cons (fetch : String → Except String ChainResponse)
    (c : String) (cs : List String) (acc : List (String × List (Nat × Int))) :
    buildData fetch (c :: cs) acc
      = buildData fetch cs
          (match processChain fetch c with
           | none => acc
           | some d => dinsert acc c d) := rfl

lemma buildData_append (fetch : String → Except String ChainResponse)
    (cs₁ cs₂ : List String) (acc : List (String × List (Nat × Int))) :
    buildData fetch (cs₁ ++ cs₂) acc = buildData fetch cs₂ (buildData fetch cs₁ acc) := by
  simp [buildData, List.foldl_append]

lemma buildData_skip (fetch : String → Except String ChainResponse)
    (c : String) (hc : processChain fetch c = none)
    (cs₁ cs₂ : List String) (acc : List (String × List (Nat × Int))) :
    buildData fetch (cs₁ ++ c :: cs₂) acc = buildData fetch (cs₁ ++ cs₂) acc := by
  rw [buildData_append, buildData_append, buildData_cons, hc]

lemma mem_keys_buildData (fetch : String → Except String ChainResponse) :
    ∀ (cs : List String) (acc : List (String × List (Nat × Int))) (c : String),
      c ∈ (buildData fetch cs acc).map Prod.fst ↔
        c ∈ acc.map Prod.fst ∨ (c ∈ cs ∧ (processChain fetch c).isSome) := by
  intro cs
  induction cs with
  | nil => simp [buildData_nil]
  | cons c' cs ih =>
    intro acc c
    rw [buildData_cons]
    cases hpc : processChain fetch c' with
    | none =>
      rw [ih]
      constructor
      · rintro (h | ⟨h1, h2⟩)
        · exact Or.inl h
        · exact Or.inr ⟨List.mem_cons_of_mem c' h1, h2⟩
      · rintro (h | ⟨h1, h2⟩)
        · exact Or.inl h
        · rcases List.mem_cons.mp h1 with rfl | h1
          · rw [hpc] at h2; simp at h2
          · exact Or.inr ⟨h1, h2⟩
    | some d =>
      rw [ih]
      rw [mem_keys_dinsert]
      constructor
      · rintro ((h | hc) | ⟨h1, h2⟩)
        · exact Or.inl h
        · subst hc
          exact Or.inr ⟨List.mem_cons_self _ _, by simp [hpc]⟩
        · exact Or.inr ⟨List.mem_cons_of_mem c' h1, h2⟩
      · rintro (h | ⟨h1, h2⟩)
        · exact Or.inl (Or.inl h)
        · rcases List.mem_cons.mp h1 with rfl | h1
          · exact Or.inl (Or.inr rfl)
          · exact Or.inr ⟨h1, h2⟩

lemma dlookup_buildData (fetch : String → Except String ChainResponse) :
    ∀ (cs : List String) (acc : List (String × List (Nat × Int))) (c : String),
      dlookup c (buildData fetch cs acc)
        = if c ∈ cs ∧ (processChain fetch c).isSome then processChain fetch c
          else dlookup c acc := by
  intro cs
  induction cs with
  | nil => simp [buildData_nil]
  | cons c' cs ih =>
    intro acc c
    rw [buildData_cons, ih]
    by_cases hmem : c ∈ cs ∧ (processChain fetch c).isSome
    · rw [if_pos hmem, if_pos ⟨List.mem_cons_of_mem c' hmem.1, hmem.2⟩]
    · rw [if_neg hmem]
      by_cases hcc : c = c'
      · subst hcc
        cases hpc : processChain fetch c with
        | none =>
          rw [if_neg (fun h => by simpa using h.2)]
        | some d =>
          rw [if_pos ⟨List.mem_cons_self c cs, by simp⟩]
          exact dlookup_dinsert_self acc c d
      · have hcond : ¬(c ∈ c' :: cs ∧ (processChain fetch c).isSome) := by
          rintro ⟨h1, h2⟩
          rcases List.mem_cons.mp h1 with rfl | h1
          · exact hcc rfl
          · exact hmem ⟨h1, h2⟩
        rw [if_neg hcond]
        cases hpc : processChain fetch c' with
        | none => rfl
        | some d => exact dlookup_dinsert_ne acc c' c d hcc

lemma mem_buildData (fetch : String → Except String ChainResponse) :
    ∀ (cs : List String) (acc : List (String × List (Nat × Int)))
      (p : String × List (Nat × Int)), p ∈ buildData fetch cs acc →
      p ∈ acc ∨ processChain fetch p.1 = some p.2 := by
  intro cs
  induction cs with
  | nil => exact fun acc p hp => Or.inl hp
  | cons c' cs ih =>
    intro acc p hp
    rw [buildData_cons] at hp
    cases hpc : processChain fetch c' with
    | none =>
      rw [hpc] at hp
      exact ih acc p hp
    | some d =>
      rw [hpc] at hp
      rcases ih _ p hp with hmem | hgood
      · rcases mem_dinsert acc c' d p hmem with hmem | rfl
        · exact Or.inl hmem
        · exact Or.inr hpc
      · exact Or.inr hgood

/-! ### `sortedUnion` lemmas -/

lemma sortedUnion_sorted (l : List Nat) :
    List.Sorted (· ≤ ·) (sortedUnion l) :=
  List.sorted_insertionSort (· ≤ ·) l.dedup

lemma sortedUnion_perm (l : List Nat) : List.Perm (sortedUnion l) l.dedup :=
  List.perm_insertionSort (· ≤ ·) l.dedup

lemma sortedUnion_nodup (l : List Nat) : (sortedUnion l).Nodup :=
  ((sortedUnion_perm l).nodup_iff).mpr l.nodup_dedup

lemma mem_sortedUnion (l : List Nat) (d : Nat) : d ∈ sortedUnion l ↔ d ∈ l := by
  rw [(sortedUnion_perm l).mem_iff, List.mem_dedup]

/-! ### `get_chain_data` shape lemmas -/

lemma get_chain_data_non_eth (chain : String) (data : ChainResponse)
    (h : pyLower chain ≠ "ethereum") :
    get_chain_data chain data
      = data.totalDataChart.map (fun tv => { date := utcDay tv.1, value := tv.2 }) := by
  simp [get_chain_data, h]

lemma get_chain_data_eth_eq (chain : String) (data : ChainResponse)
    (h1 : pyLower chain = "ethereum") :
    get_chain_data chain data
      = data.totalDataChart.map (fun tv =>
          { date := utcDay tv.1,
            value := tv.2 - totalFeeAt tv.1 (correctionSet (data.protocols.getD [])) }) := by
  unfold get_chain_data
  by_cases hcs : correctionSet (data.protocols.getD []) = []
  · simp [h1, hcs, totalFeeAt]
  · simp [h1, hcs, correctedValue_eq_sub]

lemma map_eq_map_iff_mem {α β : Type} (l : List α) (f g : α → β) :
    l.map f = l.map g ↔ ∀ a ∈ l, f a = g a := by
  induction l with
  | nil => simp
  | cons x l ih =>
    simp only [List.map_cons, List.cons.injEq, List.mem_cons]
    constructor
    · rintro ⟨h1, h2⟩ a (rfl | ha)
      · exact h1
      · exact (ih.mp h2) a ha
    · intro h
      exact ⟨h x (Or.inl rfl), ih.mpr (fun a ha => h a (Or.inr ha))⟩

/-! ### Cache-layer lemmas -/

lemma gcofd_hit (f : Fetcher) (now : Nat) (r : RedisState) (t : Nat) (d : Data)
    (hr : r.reachable = true) (he : r.entry = some (t, d))
    (hlt : now < t + CACHE_EXPIRATION) :
    get_cached_or_fresh_data f now r = .ok (d, r, 0) := by
  simp [get_cached_or_fresh_data, redis_get, hr, he, hlt]

lemma gcofd_rebuild_none (f : Fetcher) (now : Nat) (r : RedisState)
    (hr : r.reachable = true) (he : r.entry = none) :
    get_cached_or_fresh_data f now r
      = .ok (freshData f now, ⟨true, some (now, freshData f now)⟩, 1) := by
  simp [get_cached_or_fresh_data, redis_get, get_fresh_data, hr, he]

lemma gcofd_rebuild_expired (f : Fetcher) (now : Nat) (r : RedisState)
    (t : Nat) (d : Data)
    (hr : r.reachable = true) (he : r.entry = some (t, d))
    (hge : t + CACHE_EXPIRATION ≤ now) :
    get_cached_or_fresh_data f now r
      = .ok (freshData f now, ⟨true, some (now, freshData f now)⟩, 1) := by
  simp [get_cached_or_fresh_data, redis_get, get_fresh_data, hr, he, Nat.not_lt.mpr hge]

lemma gcofd_count_le_one (f : Fetcher) (now : Nat) (r : RedisState)
    (d : Data) (r' : RedisState) (n : Nat)
    (h : get_cached_or_fresh_data f now r = .ok (d, r', n)) : n ≤ 1 := by
  unfold get_cached_or_fresh_data at h
  cases hg : redis_get now r with
  | ok o =>
    cases o with
    | some x =>
      rw [hg] at h
      simp at h
      omega
    | none =>
      rw [hg] at h
      cases hf : get_fresh_data f now r with
      | ok dr =>
        rw [hf] at h
        simp at h
        omega
      | error e =>
        rw [hf] at h
        simp at h
  | error e =>
    rw [hg] at h
    cases hf : get_fresh_data f now r with
    | ok dr =>
      rw [hf] at h
      simp at h
      omega
    | error e' =>
      rw [hf] at h
      simp at h

/-! ### Sample inputs for witnesses and counterexamples -/

/-- An Ethereum response with two correction-set protocols both matching the
single raw timestamp; corrections exceed the raw value. -/
def respEth : ChainResponse :=
  ⟨[(100, 4)],
   some [⟨"Tether", ["Ethereum"], some [(100, 7)]⟩,
         ⟨"Circle", ["Ethereum"], some [(100, 9)]⟩]⟩

/-- A correction-set member: allow-listed name, active on Ethereum. -/
def pTether : Protocol := ⟨"Tether", ["Ethereum", "Tron"], some [(100, 7)]⟩

/-- Allow-listed name but not active on Ethereum: must not be subtracted. -/
def pUsdcTron : Protocol := ⟨"USDC", ["Tron"], none⟩

/-- An Ethereum response whose only correction-set protocol has a breakdown
entry matching the raw timestamp with fee `0`. -/
def respZeroFee : ChainResponse :=
  ⟨[(100, 5)], some [⟨"Tether", ["Ethereum"], some [(100, 0)]⟩]⟩

/-- A response with two timestamps in the same UTC day. -/
def respDup : ChainResponse := ⟨[(10, 5), (20, 8)], none⟩

/-- A one-chain fetcher returning `respDup` for chain `"Base"`. -/
def fDup : Fetcher := ⟨["Base"], fun c => if c = "Base" then .ok respDup else .error "x"⟩

/-- A fetcher whose `"Solana"` fetch raises and whose other fetches succeed. -/
def fFail : Fetcher :=
  ⟨["Base", "Solana"],
   fun c => if c = "Solana" then .error "UpstreamError" else .ok respDup⟩

/-- A cached snapshot payload. -/
def sampleData : Data := ⟨[0, 1], [("Ethereum", [(0, 5), (1, 7)])], 42⟩

/-- A reachable backend holding `sampleData` inserted at time `0`. -/
def sampleRedis : RedisState := ⟨true, some (0, sampleData)⟩

/-- An unreachable backend. -/
def downRedis : RedisState := ⟨false, none⟩

/-- A fetcher that is never consulted in cache-hit scenarios. -/
def sampleFetcher : Fetcher := ⟨[], fun _ => .error "unused"⟩

/-! ### Claim theorems -/

/-- Claim C1: for the Ethereum chain with a non-empty correction set, every
raw point `(T, V)` is emitted with value `V` minus the sum of the fees of
every breakdown entry, across every correction-set protocol, whose raw
timestamp exactly equals `T`; multiple protocols subtract cumulatively and
the result is unclamped (it lives in `Int` and may be negative). -/
theorem ethereum_correction_subtracts (chain : String) (data : ChainResponse)
    (h1 : pyLower chain = "ethereum")
    (h2 : correctionSet (data.protocols.getD []) ≠ []) :
    get_chain_data chain data
      = data.totalDataChart.map (fun tv =>
          { date := utcDay tv.1,
            value := tv.2 - totalFeeAt tv.1 (correctionSet (data.protocols.getD [])) }) :=
  get_chain_data_eth_eq chain data h1

/-- Witness for C1: on `respEth`, the value `4` at timestamp `100` becomes
`4 - 7 - 9 = -12` (cumulative and negative). -/
theorem ethereum_correction_subtracts_witness :
    get_chain_data "Ethereum" respEth = [{ date := 0, value := -12 }] := by
  rw [ethereum_correction_subtracts "Ethereum" respEth rfl (by decide)]
  decide

/-- Claim C2: a protocol is in the correction set iff its lowercased name is
one of tether/circle/usdt/usdc and the exact string `"Ethereum"` is in its
chains list; and a response with a missing `protocols` field yields an empty
correction set, so an Ethereum fetch over it succeeds uncorrected. -/
theorem correction_set_characterization :
    (∀ (protos : List Protocol) (p : Protocol),
        p ∈ correctionSet protos ↔
          p ∈ protos ∧ pyLower p.name ∈ ["tether", "circle", "usdt", "usdc"]
            ∧ "Ethereum" ∈ p.chains) ∧
    (∀ (chain : String) (tdc : List (Nat × Int)), pyLower chain = "ethereum" →
        correctionSet ((ChainResponse.mk tdc none).protocols.getD []) = []
          ∧ get_chain_data chain ⟨tdc, none⟩
              = tdc.map (fun tv => { date := utcDay tv.1, value := tv.2 })) := by
  constructor
  · intro protos p
    simp [correctionSet, List.mem_filter, isStablecoinIssuerName, and_assoc]
  · intro chain tdc h
    refine ⟨rfl, ?_⟩
    rw [get_chain_data_eth_eq chain _ h]
    simp [correctionSet, totalFeeAt]

/-- Witness for C2: `pTether` is in the correction set, `pUsdcTron` (right
name, not active on Ethereum) is not, and a protocols-less response gives an
empty correction set. -/
theorem correction_set_characterization_witness :
    pTether ∈ correctionSet [pTether, pUsdcTron]
      ∧ pUsdcTron ∉ correctionSet [pTether, pUsdcTron]
      ∧ correctionSet ((ChainResponse.mk [(100, 4)] none).protocols.getD []) = [] := by
  have h := correction_set_characterization
  refine ⟨(h.1 _ pTether).mpr ⟨by decide, by decide, by decide⟩, ?_,
    (h.2 "Ethereum" [(100, 4)] rfl).1⟩
  intro hin
  exact absurd ((h.1 _ pUsdcTron).mp hin).2.2 (by decide)

/-- Claim C3: a chain whose fetch raises, or whose fetched series is empty,
is absent from the snapshot, and the rest of the snapshot (every other
chain's data and the date union) is exactly what it would be without that
chain in the chain list. -/
theorem failing_chain_skipped (fetch : String → Except String ChainResponse)
    (c : String)
    (h : (∃ e, fetch c = Except.error e)
        ∨ ∃ resp, fetch c = Except.ok resp ∧ get_chain_data c resp = []) :
    (∀ cs₁ cs₂, get_time_series_format ⟨cs₁ ++ c :: cs₂, fetch⟩
        = get_time_series_format ⟨cs₁ ++ cs₂, fetch⟩) ∧
    (∀ cs, c ∉ (get_time_series_format ⟨cs, fetch⟩).2.map Prod.fst) := by
  have hpc : processChain fetch c = none := by
    rcases h with ⟨e, he⟩ | ⟨resp, hok, hempty⟩
    · simp [processChain, he]
    · simp [processChain, hok, hempty]
  constructor
  · intro cs₁ cs₂
    simp only [get_time_series_format]
    rw [buildData_skip fetch c hpc cs₁ cs₂]
  · intro cs hmem
    have hmem' : c ∈ (buildData fetch cs []).map Prod.fst := hmem
    rcases (mem_keys_buildData fetch cs [] c).mp hmem' with h0 | ⟨_, hsome⟩
    · simp at h0
    · rw [hpc] at hsome
      simp at hsome

/-- Witness for C3: dropping the failing `"Solana"` chain from `fFail`'s
chain list leaves the snapshot unchanged, and `"Solana"` is absent. -/
theorem failing_chain_skipped_witness :
    get_time_series_format ⟨["Base", "Solana"], fFail.fetch⟩
        = get_time_series_format ⟨["Base"], fFail.fetch⟩
      ∧ "Solana" ∉ (get_time_series_format ⟨["Base", "Solana"], fFail.fetch⟩).2.map Prod.fst := by
  have h := failing_chain_skipped fFail.fetch "Solana" (Or.inl ⟨"UpstreamError", rfl⟩)
  exact ⟨h.1 ["Base"] [], h.2 ["Base", "Solana"]⟩

/-- Claim C4: the snapshot's date list is sorted ascending, has no
duplicates, and a date is in it iff it is a date key of some included
chain's series. -/
theorem snapshot_dates_sorted_union (f : Fetcher) :
    List.Sorted (· ≤ ·) (get_time_series_format f).1 ∧
    (get_time_series_format f).1.Nodup ∧
    ∀ d, d ∈ (get_time_series_format f).1 ↔
      ∃ p ∈ (get_time_series_format f).2, d ∈ p.2.map Prod.fst := by
  refine ⟨sortedUnion_sorted _, sortedUnion_nodup _, fun d => ?_⟩
  change d ∈ sortedUnion ((buildData f.fetch f.chains []).flatMap fun cd => cd.2.map Prod.fst)
      ↔ ∃ p ∈ buildData f.fetch f.chains [], d ∈ p.2.map Prod.fst
  rw [mem_sortedUnion, List.mem_flatMap]

/-- Claim C5 (the code, evaluated at the failing scenario): when the backend
is unreachable, the cached read does NOT degrade to an uncached fresh fetch;
the fallback `get_fresh_data` re-raises the write failure and the whole
request fails. -/
theorem backend_down_request_fails (f : Fetcher) (now : Nat) (r : RedisState)
    (h : r.reachable = false) :
    get_cached_or_fresh_data f now r = .error .backend := by
  simp [get_cached_or_fresh_data, redis_get, get_fresh_data, h]

/-- Witness for C5's evaluation: a concrete unreachable backend fails the
request instead of returning fresh data. -/
theorem backend_down_request_fails_witness :
    get_cached_or_fresh_data sampleFetcher 0 downRedis = .error .backend :=
  backend_down_request_fails sampleFetcher 0 downRedis rfl

/-- Claim C6 (the code, evaluated at the failing scenario): filtering by a
chain absent from the snapshot yields HTTP 500, not the 404 not-found
response — the `except Exception` handler catches the `HTTPException(404)`
raised inside the `try` block and re-raises it as 500. -/
theorem absent_chain_filter_500 :
    get_chain_fees sampleFetcher 10 sampleRedis (some "Arbitrum") = .error 500
      ∧ get_chain_fees sampleFetcher 10 sampleRedis (some "Arbitrum") ≠ .error 404
      ∧ get_chain_fees sampleFetcher 10 sampleRedis (some "Ethereum")
          = .ok ⟨sampleData.dates, [("Ethereum", [(0, 5), (1, 7)])], sampleData.lastUpdated⟩ := by
  refine ⟨rfl, fun hcontra => ?_, rfl⟩
  have h : (Except.error 500 : Except Nat Data) = Except.error 404 := hcontra
  exact absurd (Except.error.inj h) (by decide)

/-- Claim C7: for any chain other than Ethereum (case-insensitive),
`get_chain_data` emits one entry per input pair, in order, with the raw
value verbatim and the UTC-day-truncated date. -/
theorem non_ethereum_no_correction (chain : String) (data : ChainResponse)
    (h : pyLower chain ≠ "ethereum") :
    get_chain_data chain data
      = data.totalDataChart.map (fun tv => { date := utcDay tv.1, value := tv.2 }) :=
  get_chain_data_non_eth chain data h

/-- Witness for C7: a non-Ethereum chain's point passes through verbatim with
its timestamp truncated to the UTC day. -/
theorem non_ethereum_no_correction_witness :
    get_chain_data "Arbitrum" ⟨[(86405, 3)], none⟩ = [{ date := 1, value := 3 }] := by
  rw [non_ethereum_no_correction "Arbitrum" ⟨[(86405, 3)], none⟩ (by decide)]
  decide

/-- Claim C8: with a reachable backend, a read inside the TTL window returns
the stored snapshot with zero rebuilds (for every fetcher, so the fetcher is
never consulted); a read at or after expiry performs exactly one rebuild and
stores its result with insertion time `now`; and two consecutive reads whose
times lie within one TTL window of each other perform at most one rebuild
in total. -/
theorem cache_ttl_semantics (f : Fetcher) (now : Nat) (r : RedisState)
    (hr : r.reachable = true) :
    (∀ t d, r.entry = some (t, d) → now < t + CACHE_EXPIRATION →
        get_cached_or_fresh_data f now r = .ok (d, r, 0)) ∧
    (∀ t d, r.entry = some (t, d) → t + CACHE_EXPIRATION ≤ now →
        get_cached_or_fresh_data f now r
          = .ok (freshData f now, ⟨true, some (now, freshData f now)⟩, 1)) ∧
    (∀ now₁ now₂ d₁ r₁ n₁ d₂ r₂ n₂,
        get_cached_or_fresh_data f now₁ r = .ok (d₁, r₁, n₁) →
        get_cached_or_fresh_data f now₂ r₁ = .ok (d₂, r₂, n₂) →
        now₁ ≤ now₂ → now₂ < now₁ + CACHE_EXPIRATION → n₁ + n₂ ≤ 1) := by
  refine ⟨fun t d he hlt => gcofd_hit f now r t d hr he hlt,
    fun t d he hge => gcofd_rebuild_expired f now r t d hr he hge,
    fun now₁ now₂ d₁ r₁ n₁ d₂ r₂ n₂ h1 h2 hle hlt => ?_⟩
  cases he : r.entry with
  | none =>
    rw [gcofd_rebuild_none f now₁ r hr he] at h1
    obtain ⟨hd1, hr1, hn1⟩ : d₁ = freshData f now₁
        ∧ r₁ = ⟨true, some (now₁, freshData f now₁)⟩ ∧ n₁ = 1 := by
      simpa using h1.symm
    subst hr1
    rw [gcofd_hit f now₂ _ now₁ (freshData f now₁) rfl rfl
      (lt_of_lt_of_le hlt (by omega))] at h2
    have hn2 : n₂ = 0 := by
        have h2' := h2
        simp only [Except.ok.injEq, Prod.mk.injEq] at h2'
        omega
    omega
  | some td =>
    obtain ⟨t, d⟩ := td
    by_cases httl : now₁ < t + CACHE_EXPIRATION
    · rw [gcofd_hit f now₁ r t d hr he httl] at h1
      obtain ⟨hd1, hr1, hn1⟩ : d₁ = d ∧ r₁ = r ∧ n₁ = 0 := by simpa using h1.symm
      have := gcofd_count_le_one f now₂ r₁ d₂ r₂ n₂ h2
      omega
    · rw [gcofd_rebuild_expired f now₁ r t d hr he (Nat.not_lt.mp httl)] at h1
      obtain ⟨hd1, hr1, hn1⟩ : d₁ = freshData f now₁
          ∧ r₁ = ⟨true, some (now₁, freshData f now₁)⟩ ∧ n₁ = 1 := by
        simpa using h1.symm
      subst hr1
      rw [gcofd_hit f now₂ _ now₁ (freshData f now₁) rfl rfl
        (lt_of_lt_of_le hlt (by omega))] at h2
      have hn2 : n₂ = 0 := by
        have h2' := h2
        simp only [Except.ok.injEq, Prod.mk.injEq] at h2'
        omega
      omega

/-- Witness for C8: a read at time `10` of a snapshot inserted at time `0`
is a cache hit with zero rebuilds. -/
theorem cache_ttl_semantics_witness :
    get_cached_or_fresh_data sampleFetcher 10 sampleRedis
      = .ok (sampleData, sampleRedis, 0) :=
  (cache_ttl_semantics sampleFetcher 10 sampleRedis rfl).1 0 sampleData rfl (by decide)

/-- Claim C9: the snapshot stores, per chain, the dict of its emitted
entries: date keys are unique, a duplicated UTC date keeps the value of the
last entry in input order, and this holds for every chain dict in the
snapshot. -/
theorem per_chain_last_write_wins (f : Fetcher) (c : String)
    (resp : ChainResponse)
    (h1 : f.fetch c = Except.ok resp) (h2 : c ∈ f.chains)
    (h3 : get_chain_data c resp ≠ []) :
    dlookup c (get_time_series_format f).2 = some (toDict (get_chain_data c resp)) ∧
    (∀ p ∈ (get_time_series_format f).2, (p.2.map Prod.fst).Nodup) ∧
    (∀ k, dlookup k (toDict (get_chain_data c resp))
        = (((get_chain_data c resp).filter (fun e => e.date = k)).getLast?).map Entry.value) := by
  have hpc : processChain f.fetch c = some (toDict (get_chain_data c resp)) := by
    simp [processChain, h1, h3]
  refine ⟨?_, ?_, fun k => dlookup_toDict _ k⟩
  · change dlookup c (buildData f.fetch f.chains []) = _
    rw [dlookup_buildData f.fetch f.chains [] c, if_pos ⟨h2, by simp [hpc]⟩, hpc]
  · intro p hp
    have hp' : p ∈ buildData f.fetch f.chains [] := hp
    rcases mem_buildData f.fetch f.chains [] p hp' with h0 | hgood
    · simp at h0
    · unfold processChain at hgood
      cases hf : f.fetch p.1 with
      | error e => rw [hf] at hgood; simp at hgood
      | ok resp' =>
        rw [hf] at hgood
        by_cases hce : get_chain_data p.1 resp' = []
        · simp [hce] at hgood
        · simp only [hce, if_neg, if_false] at hgood
          have : toDict (get_chain_data p.1 resp') = p.2 := by
            simpa [hce] using hgood
          rw [← this]
          exact nodup_keys_toDict _

/-- Witness for C9: `respDup` has timestamps `10` and `20`, both in UTC day
`0`; the snapshot keeps one entry for day `0` holding the later value `8`. -/
theorem per_chain_last_write_wins_witness :
    dlookup "Base" (get_time_series_format fDup).2 = some [(0, 8)] := by
  have h := per_chain_last_write_wins fDup "Base" respDup rfl (by decide) (by decide)
  rw [h.1]
  decide

/-- Counterexample to C10 as stated: on `respZeroFee` the correction set is
non-empty and a breakdown timestamp matches a raw timestamp, yet the two
variants coincide (the matching fee is `0`), so "differ otherwise" is false. -/
theorem variants_coincide_despite_match :
    get_chain_data "Ethereum" respZeroFee = get_chain_data_v1 "Ethereum" respZeroFee
      ∧ correctionSet (respZeroFee.protocols.getD []) ≠ []
      ∧ ∃ p ∈ correctionSet (respZeroFee.protocols.getD []),
          ∃ e ∈ p.breakdown.getD [], ∃ tv ∈ respZeroFee.totalDataChart, e.1 = tv.1 := by
  refine ⟨by decide, by decide, ?_⟩
  exact ⟨⟨"Tether", ["Ethereum"], some [(100, 0)]⟩, by decide,
    (100, 0), by decide, (100, 5), by decide, rfl⟩

/-- Claim C10 (amended): the two variants agree on every non-Ethereum chain
and every response; on Ethereum they agree iff every raw point's total
matching correction fee is zero (in particular when the correction set is
empty or no breakdown timestamp matches), and differ otherwise. -/
theorem variants_agreement (chain : String) (data : ChainResponse) :
    (pyLower chain ≠ "ethereum" →
        get_chain_data chain data = get_chain_data_v1 chain data) ∧
    (pyLower chain = "ethereum" →
        (get_chain_data chain data = get_chain_data_v1 chain data ↔
          ∀ tv ∈ data.totalDataChart,
            totalFeeAt tv.1 (correctionSet (data.protocols.getD [])) = 0)) := by
  constructor
  · intro h
    rw [get_chain_data_non_eth chain data h]
    rfl
  · intro h
    rw [get_chain_data_eth_eq chain data h]
    unfold get_chain_data_v1
    rw [map_eq_map_iff_mem]
    constructor
    · intro hall tv htv
      have := hall tv htv
      simp only [Entry.mk.injEq, true_and] at this
      omega
    · intro hall tv htv
      simp [Entry.mk.injEq, hall tv htv]

/-- Witness for C10 (amended): on a non-Ethereum chain the variants agree. -/
theorem variants_agreement_witness :
    get_chain_data "Polygon" respZeroFee = get_chain_data_v1 "Polygon" respZeroFee :=
  (variants_agreement "Polygon" respZeroFee).1 (by decide)

end DefiScanner
